import Mathlib

/-!
Verification of the streaming response ingestion and recovery pipeline of the
ComfyUI Workflow Generator repository.

The embedded code comes from:
  * `src/unnamed/part_001` — `extractJson` (marker split, key-anchored balanced
    scan, first/last-brace fallback) and the NDJSON stream consumer inside
    `generateWorkflowLocal` (line splitting, per-line decoding, Phase-2
    extraction / parse / auto-repair).
  * `src/services/localLlmService.ts` — the balanced-brace scan inside
    `extractContentFromText` (character-identical to the scan in
    `extractJson`), the `<thinking>` block extraction, and the auto-repair
    block of `generateWorkflowLocal` (lines 252–267, including the
    numeric-string key heuristic).
  * `src/services/geminiService.ts` — the post-parse validation of
    `generateWorkflow` (lines 140–157).

Texts are modelled as `List Char`.  JavaScript strings are unicode code-unit
sequences; every input considered here stays within the code-point range where
the two agree, and `TextDecoder` with `stream: true` makes the byte→text
decoding chunk-transparent, so transport chunks are modelled as `List Char`
chunks as well.
-/

/-- Characters of a string literal, for readable concrete inputs. -/
def toL (s : String) : List Char := s.data

/-- JavaScript `String.prototype.trim` whitespace (ASCII part; the inputs in
this development contain no non-ASCII whitespace). -/
def wsChar (c : Char) : Bool :=
  c = ' ' || c = '\t' || c = '\n' || c = '\r' || c = Char.ofNat 11 || c = Char.ofNat 12

/-- JavaScript `text.trim()` on character lists. -/
def trimL (l : List Char) : List Char :=
  ((l.dropWhile wsChar).reverse.dropWhile wsChar).reverse

/-- `pat` occurs at the head of `l`. -/
def leadsWith : List Char → List Char → Bool
  | [], _ => true
  | _ :: _, [] => false
  | p :: ps, c :: cs => p = c && leadsWith ps cs

/-- Leftmost-occurrence split: `splitFirst pat text = some (a, b)` when
`text = a ++ pat ++ b` and `a` is the shortest such prefix; `none` when `pat`
does not occur.  This is the semantics of JavaScript `indexOf` / the first
step of `String.prototype.split` with a fixed non-empty separator. -/
def splitFirst (pat : List Char) : List Char → Option (List Char × List Char)
  | [] => if pat = [] then some ([], []) else none
  | c :: cs =>
    if leadsWith pat (c :: cs) then some ([], (c :: cs).drop pat.length)
    else
      match splitFirst pat cs with
      | some (a, b) => some (c :: a, b)
      | none => none

/-- JavaScript `text.indexOf(pat)`, as an `Option Nat`. -/
def findSubIdx (text pat : List Char) : Option Nat :=
  (splitFirst pat text).map (fun p => p.1.length)

/-- JavaScript `text.includes(pat)`. -/
def occursIn (pat text : List Char) : Bool :=
  (splitFirst pat text).isSome

/-- JavaScript `text.replace(pat, '')` for a plain-string pattern: remove the
first occurrence, leave the text unchanged when there is none. -/
def removeFirst (pat text : List Char) : List Char :=
  match splitFirst pat text with
  | some (a, b) => a ++ b
  | none => text

/--
The balanced-brace locator.  This is the scan loop of
`extractContentFromText` (`src/services/localLlmService.ts` lines 37–59) and,
character for character, the scan loop of `extractJson`
(`src/unnamed/part_001` lines 41–62):

    let balance = 0; let insideString = false; let escape = false;
    for (let i = start; i < text.length; i++) {
      const char = text[i];
      if (escape) { escape = false; continue; }
      if (char === '\\') { escape = true; continue; }
      if (char === '"') { insideString = !insideString; continue; }
      if (!insideString) {
        if (char === '{') balance++;
        else if (char === '}') { balance--; if (balance === 0) return i; }
      }
    }
    return notFound;

The balance counter is an `Int` because the JavaScript counter can go
negative when a stray `}` precedes the opening brace. -/
def scanAux : List Char → Nat → Int → Bool → Bool → Option Nat
  | [], _, _, _, _ => none
  | c :: cs, i, bal, ins, esc =>
    if esc then scanAux cs (i + 1) bal ins false
    else if c = '\\' then scanAux cs (i + 1) bal ins true
    else if c = '"' then scanAux cs (i + 1) bal (!ins) esc
    else if ins = false ∧ c = '{' then scanAux cs (i + 1) (bal + 1) ins esc
    else if ins = false ∧ c = '}' then
      if bal - 1 = 0 then some i else scanAux cs (i + 1) (bal - 1) ins esc
    else scanAux cs (i + 1) bal ins esc

/-- The locator started at offset `start` of `text`, returning the absolute
index of the `}` that brings the depth opened at `start` back to zero. -/
def scanBalanced (text : List Char) (start : Nat) : Option Nat :=
  scanAux (text.drop start) start 0 false false

/-- Body of a JSON string literal (the characters strictly between the two
quotes): every `"` and every `\` is preceded by an escaping backslash, and a
backslash always escapes the following character.  Literal `{` and `}` are
allowed as plain characters. -/
inductive StrBody : List Char → Prop
  | nil : StrBody []
  | plain (c : Char) (h1 : c ≠ '"') (h2 : c ≠ '\\') {s : List Char}
      (hs : StrBody s) : StrBody (c :: s)
  | esc (c : Char) {s : List Char} (hs : StrBody s) :
      StrBody ('\\' :: c :: s)

/-- Brace-balanced text: the character sequences that can appear strictly
inside a well-formed JSON object (between its outer braces).  String literals
are opaque (`str`), non-special characters pass through (`plain`), and nested
objects open and close in a balanced way (`nest`).  Every well-formed JSON
value serialisation whose string literals satisfy `StrBody` is covered. -/
inductive BalText : List Char → Prop
  | nil : BalText []
  | str {b s : List Char} (hb : StrBody b) (hs : BalText s) :
      BalText ('"' :: b ++ '"' :: s)
  | plain (c : Char) (h1 : c ≠ '{') (h2 : c ≠ '}') (h3 : c ≠ '"')
      (h4 : c ≠ '\\') {s : List Char} (hs : BalText s) : BalText (c :: s)
  | nest {s t : List Char} (hs : BalText s) (ht : BalText t) :
      BalText ('{' :: s ++ '}' :: t)

/-- Parsed JSON values (the result of `JSON.parse`).  Numbers keep their
source literal: none of the verified claims depends on numeric arithmetic,
only on whether a number is zero (for JavaScript truthiness), which is
decidable from the literal. -/
inductive JVal where
  | null : JVal
  | bool (b : Bool) : JVal
  | num (lit : List Char) : JVal
  | str (s : List Char) : JVal
  | arr (elems : List JVal) : JVal
  | obj (fields : List (List Char × JVal)) : JVal

/-- Last-binding-wins association lookup.  `JSON.parse` itself already keeps
only the last duplicate key, so on parser output this is plain lookup; the
reverse orientation keeps the model faithful on arbitrary field lists. -/
def lookupLast : List (List Char × JVal) → List Char → Option JVal
  | [], _ => none
  | (k', v') :: rest, k =>
    match lookupLast rest k with
    | some r => some r
    | none => if k' = k then some v' else none

/-- JavaScript property read `v[k]`: `some` for a present object property,
`none` for the `undefined` result on everything else.  (Reading a property of
`null` throws in JavaScript; the call sites that can receive `null` model
that throw explicitly.) -/
def getProp (v : JVal) (k : List Char) : Option JVal :=
  match v with
  | .obj fields => lookupLast fields k
  | _ => none

/-- JavaScript property write `v[k] = val` on an object (replace in place,
else append); no-op on non-objects (only reached on objects in the embedded
code). -/
def setProp (v : JVal) (k : List Char) (val : JVal) : JVal :=
  match v with
  | .obj fields =>
    if fields.any (fun p => p.1 = k) then
      .obj (fields.map (fun p => if p.1 = k then (k, val) else p))
    else .obj (fields ++ [(k, val)])
  | x => x

/-- The digits of the mantissa of a JSON number literal are all zero, i.e.
the number is `0` (or `-0`), the only falsy JSON numbers. -/
def numIsZero (lit : List Char) : Bool :=
  ((lit.takeWhile (fun c => c ≠ 'e' ∧ c ≠ 'E')).filter Char.isDigit).all
    (fun c => c = '0')

/-- JavaScript truthiness of a JSON value: `null`, `false`, `0` and `""` are
falsy; objects and arrays are always truthy. -/
def truthy : JVal → Bool
  | .null => false
  | .bool b => b
  | .num lit => !numIsZero lit
  | .str s => !s.isEmpty
  | .arr _ => true
  | .obj _ => true

/-- Truthiness of a possibly-`undefined` property read. -/
def truthyO : Option JVal → Bool
  | none => false
  | some v => truthy v

/-- Decimal digit characters of a natural number. -/
def natDigits (n : Nat) : List Char := Nat.toDigits 10 n

/-- JavaScript `Object.keys`: own enumerable keys — the field names of an
object, the index strings of an array or a string, nothing for the other
primitives. -/
def jsKeys : JVal → List (List Char)
  | .obj fields => fields.map (fun p => p.1)
  | .arr l => (List.range l.length).map natDigits
  | .str s => (List.range s.length).map natDigits
  | _ => []

/-- One or more characters satisfying `p` at the head: returns the rest on
success. -/
def chompSome (p : Char → Bool) (l : List Char) : Option (List Char) :=
  match l.dropWhile p with
  | rest => if (l.takeWhile p).isEmpty then none else some rest

/-- `[+-]?` optional sign. -/
def dropSign (l : List Char) : List Char :=
  match l with
  | c :: cs => if c = '+' ∨ c = '-' then cs else l
  | [] => l

/-- A JavaScript decimal numeric literal after the optional sign:
`digits ('.' digits*)? | '.' digits+`, followed by an optional exponent. -/
def decBody (l : List Char) : Option (List Char) :=
  match l with
  | '.' :: rest => chompSome Char.isDigit rest
  | _ =>
    match chompSome Char.isDigit l with
    | none => none
    | some rest =>
      match rest with
      | '.' :: rest2 => some (rest2.dropWhile Char.isDigit)
      | _ => some rest

/-- Optional exponent part `([eE][+-]?digits)?`. -/
def expPart (l : List Char) : Option (List Char) :=
  match l with
  | c :: rest =>
    if c = 'e' ∨ c = 'E' then chompSome Char.isDigit (dropSign rest)
    else some l
  | [] => some []

/-- The string converts to a non-NaN number under JavaScript `Number(...)`:
empty/whitespace-only (gives `0`), signed decimal with optional exponent,
signed `Infinity`, or unsigned hex / octal / binary literals.  This is the
semantics of the key test `!isNaN(Number(k))` at
`src/services/localLlmService.ts` line 253. -/
def isNumericKeyStr (k : List Char) : Bool :=
  let t := (((k.dropWhile wsChar).reverse.dropWhile wsChar).reverse)
  if t.isEmpty then true
  else if dropSign t = toL "Infinity" then true
  else
    match t with
    | '0' :: c :: rest =>
      if c = 'x' ∨ c = 'X' then (chompSome (fun d => d.isDigit || ('a' ≤ d ∧ d ≤ 'f') || ('A' ≤ d ∧ d ≤ 'F')) rest) = some []
      else if c = 'o' ∨ c = 'O' then (chompSome (fun d => '0' ≤ d ∧ d ≤ '7') rest) = some []
      else if c = 'b' ∨ c = 'B' then (chompSome (fun d => d = '0' ∨ d = '1') rest) = some []
      else
        match decBody (dropSign t) with
        | some r => (expPart r) = some []
        | none => false
    | _ =>
      match decBody (dropSign t) with
      | some r => (expPart r) = some []
      | none => false

/-- JSON whitespace. -/
def jsonWs (c : Char) : Bool := c = ' ' || c = '\t' || c = '\n' || c = '\r'

/-- Skip JSON whitespace. -/
def skipWs (l : List Char) : List Char := l.dropWhile jsonWs

/-- Hexadecimal digit value. -/
def hexVal (c : Char) : Option Nat :=
  if c.isDigit then some (c.toNat - '0'.toNat)
  else if 'a' ≤ c ∧ c ≤ 'f' then some (c.toNat - 'a'.toNat + 10)
  else if 'A' ≤ c ∧ c ≤ 'F' then some (c.toNat - 'A'.toNat + 10)
  else none

/-- JSON string body after the opening quote: returns the decoded content and
the rest after the closing quote.  (A `\uXXXX` in the surrogate range decodes
to a JavaScript code unit outside Lean's `Char`; `Char.ofNat` then yields NUL.
No verified claim involves surrogate escapes.) -/
def parseStrTail : Nat → List Char → Option (List Char × List Char)
  | 0, _ => none
  | _ + 1, [] => none
  | fuel + 1, c :: cs =>
    if c = '"' then some ([], cs)
    else if c = '\\' then
      match cs with
      | [] => none
      | e :: cs2 =>
        if e = '"' ∨ e = '\\' ∨ e = '/' then
          (parseStrTail fuel cs2).map (fun p => (e :: p.1, p.2))
        else if e = 'b' then (parseStrTail fuel cs2).map (fun p => (Char.ofNat 8 :: p.1, p.2))
        else if e = 'f' then (parseStrTail fuel cs2).map (fun p => (Char.ofNat 12 :: p.1, p.2))
        else if e = 'n' then (parseStrTail fuel cs2).map (fun p => ('\n' :: p.1, p.2))
        else if e = 'r' then (parseStrTail fuel cs2).map (fun p => ('\r' :: p.1, p.2))
        else if e = 't' then (parseStrTail fuel cs2).map (fun p => ('\t' :: p.1, p.2))
        else if e = 'u' then
          match cs2 with
          | h1 :: h2 :: h3 :: h4 :: cs3 =>
            match hexVal h1, hexVal h2, hexVal h3, hexVal h4 with
            | some a, some b, some c', some d =>
              (parseStrTail fuel cs3).map
                (fun p => (Char.ofNat (((a * 16 + b) * 16 + c') * 16 + d) :: p.1, p.2))
            | _, _, _, _ => none
          | _ => none
        else none
    else if c.toNat < 32 then none
    else (parseStrTail fuel cs).map (fun p => (c :: p.1, p.2))

/-- JSON number literal at the head: returns the literal and the rest. -/
def parseNum (l : List Char) : Option (List Char × List Char) :=
  let sp : List Char × List Char := match l with
    | '-' :: r => (['-'], r)
    | _ => ([], l)
  let ip := sp.2.takeWhile Char.isDigit
  let r1 := sp.2.dropWhile Char.isDigit
  if ip.isEmpty then none
  else if 1 < ip.length ∧ ip.headD '0' = '0' then none
  else
    let fp : Option (List Char × List Char) := match r1 with
      | '.' :: rf =>
        let fd := rf.takeWhile Char.isDigit
        if fd.isEmpty then none else some ('.' :: fd, rf.dropWhile Char.isDigit)
      | _ => some ([], r1)
    match fp with
    | none => none
    | some (fdigits, r2) =>
      let ep : Option (List Char × List Char) := match r2 with
        | c :: re =>
          if c = 'e' ∨ c = 'E' then
            let sp2 : List Char × List Char := match re with
              | s :: re2 => if s = '+' ∨ s = '-' then ([s], re2) else ([], re)
              | [] => ([], re)
            let ed := sp2.2.takeWhile Char.isDigit
            if ed.isEmpty then none
            else some (c :: sp2.1 ++ ed, sp2.2.dropWhile Char.isDigit)
          else some ([], r2)
        | [] => some ([], r2)
      match ep with
      | none => none
      | some (edigits, r3) => some (sp.1 ++ ip ++ fdigits ++ edigits, r3)

/-- Duplicate keys: assignment semantics of building a JavaScript object —
the last value wins, the first position is kept. -/
def insertField (fields : List (List Char × JVal)) (k : List Char) (v : JVal) :
    List (List Char × JVal) :=
  if fields.any (fun p => p.1 = k) then
    fields.map (fun p => if p.1 = k then (k, v) else p)
  else fields ++ [(k, v)]

mutual

/-- Recursive descent for one JSON value (fuel-indexed; the fuel used at the
top level is always sufficient). -/
def parseVal : Nat → List Char → Option (JVal × List Char)
  | 0, _ => none
  | fuel + 1, l =>
    match skipWs l with
    | [] => none
    | '{' :: cs =>
      (match skipWs cs with
       | '}' :: rest => some (.obj [], rest)
       | cs2 => parseFieldList fuel cs2 [])
    | '[' :: cs =>
      (match skipWs cs with
       | ']' :: rest => some (.arr [], rest)
       | cs2 => parseElemList fuel cs2 [])
    | '"' :: cs => (parseStrTail (cs.length + 1) cs).map (fun p => (.str p.1, p.2))
    | 't' :: cs => if leadsWith (toL "rue") cs then some (.bool true, cs.drop 3) else none
    | 'f' :: cs => if leadsWith (toL "alse") cs then some (.bool false, cs.drop 4) else none
    | 'n' :: cs => if leadsWith (toL "ull") cs then some (.null, cs.drop 3) else none
    | l2 => (parseNum l2).map (fun p => (.num p.1, p.2))

/-- Members of an object after the opening `{` (at least one member). -/
def parseFieldList : Nat → List Char → List (List Char × JVal) →
    Option (JVal × List Char)
  | 0, _, _ => none
  | fuel + 1, l, acc =>
    match skipWs l with
    | '"' :: cs =>
      (match parseStrTail (cs.length + 1) cs with
       | none => none
       | some (key, r1) =>
         match skipWs r1 with
         | ':' :: r2 =>
           (match parseVal fuel r2 with
            | none => none
            | some (v, r3) =>
              match skipWs r3 with
              | ',' :: r4 => parseFieldList fuel r4 (insertField acc key v)
              | '}' :: r4 => some (.obj (insertField acc key v), r4)
              | _ => none)
         | _ => none)
    | _ => none

/-- Elements of an array after the opening `[` (at least one element). -/
def parseElemList : Nat → List Char → List JVal → Option (JVal × List Char)
  | 0, _, _ => none
  | fuel + 1, l, acc =>
    match parseVal fuel l with
    | none => none
    | some (v, r1) =>
      match skipWs r1 with
      | ',' :: r2 => parseElemList fuel r2 (acc ++ [v])
      | ']' :: r2 => some (.arr (acc ++ [v]), r2)
      | _ => none

end

/-- `JSON.parse(l)`: one JSON value, possibly surrounded by whitespace,
nothing after it. -/
def parseJson (l : List Char) : Option JVal :=
  match parseVal (2 * l.length + 2) l with
  | some (v, rest) => if (skipWs rest).isEmpty then some v else none
  | none => none

/-- The sentinel marker (`MARKER` / the literal of `extractJson`). -/
def markerL : List Char := toL "###JSON_START###"

/-- Split the pending text at every `\n`, as the per-chunk
`buffer.split(/\r?\n/)` does, except that the `\r` absorbed by the regex is
still on the end of each complete line (removed separately by `stripCR`).
Returns the complete lines and the trailing fragment that
`buffer = lines.pop()` keeps. -/
def splitNlRaw : List Char → List (List Char) × List Char
  | [] => ([], [])
  | c :: cs =>
    let p := splitNlRaw cs
    if c = '\n' then ([] :: p.1, p.2)
    else
      match p.1 with
      | [] => ([], c :: p.2)
      | l :: ls => ((c :: l) :: ls, p.2)

/-- Remove the `\r` that belongs to a `\r\n` separator from the end of a
complete line. -/
def stripCR (l : List Char) : List Char :=
  match l.reverse with
  | '\r' :: rest => rest.reverse
  | _ => l

/-- Consumer state visible to the finalisation phase: the accumulated token
text and the status payloads forwarded to the status callback. -/
structure StreamCore where
  fullText : List Char
  statuses : List JVal

/-- The property read is exactly the given string (JavaScript `===` against a
string literal). -/
def isStrEq (o : Option JVal) (s : List Char) : Bool :=
  match o with
  | some (.str t) => t = s
  | _ => false

mutual

/-- JavaScript string coercion `'' + v` of a JSON value.  Numbers are
rendered as their source literal — an approximation of JavaScript's
double-formatting that no verified claim depends on. -/
def jsToString : JVal → List Char
  | .null => toL "null"
  | .bool true => toL "true"
  | .bool false => toL "false"
  | .num lit => lit
  | .str s => s
  | .arr l => jsJoinElems l
  | .obj _ => toL "[object Object]"

/-- `Array.prototype.toString`: elements joined with `,`, `null` elements
rendered as the empty string. -/
def jsJoinElems : List JVal → List Char
  | [] => []
  | [JVal.null] => []
  | [x] => jsToString x
  | JVal.null :: y :: rest => ',' :: jsJoinElems (y :: rest)
  | x :: y :: rest => jsToString x ++ ',' :: jsJoinElems (y :: rest)

end

/-- Coercion of a possibly-`undefined` property (JavaScript
`text += undefined` appends the string `"undefined"`). -/
def jsToStrOpt : Option JVal → List Char
  | none => toL "undefined"
  | some v => jsToString v

/-- The `type` key. -/
def typeK : List Char := toL "type"

/-- The `data` key. -/
def dataK : List Char := toL "data"

/--
One complete transport line, `src/unnamed/part_001` lines 149–166:

    if (!line.trim()) continue;
    try {
      const msg = JSON.parse(line);
      if (msg.type === 'status') { if (onStatusUpdate) onStatusUpdate(msg.data); }
      else if (msg.type === 'token') { fullText += msg.data; onThoughtsUpdate(fullText); }
    } catch (e) { fullText += line; onThoughtsUpdate(fullText); }

`JSON.parse("null")` succeeds but the subsequent `msg.type` read throws a
`TypeError`, which the same `catch` turns into a raw append; a parsed value
whose `type` is neither `status` nor `token` contributes nothing. -/
def handleLine (core : StreamCore) (line : List Char) : StreamCore :=
  if (trimL line).isEmpty then core
  else
    match parseJson line with
    | none => { core with fullText := core.fullText ++ line }
    | some msg =>
      match msg with
      | .null => { core with fullText := core.fullText ++ line }
      | _ =>
        if isStrEq (getProp msg typeK) (toL "status") then
          { core with statuses := core.statuses ++ [(getProp msg dataK).getD .null] }
        else if isStrEq (getProp msg typeK) (toL "token") then
          { core with fullText := core.fullText ++ jsToStrOpt (getProp msg dataK) }
        else core

/--
One transport chunk, `src/unnamed/part_001` lines 145–166:

    buffer += decoder.decode(value, { stream: true });
    const lines = buffer.split(/\r?\n/);
    buffer = lines.pop() || '';
    for (const line of lines) { ... }
-/
def processChunk (st : StreamCore × List Char) (chunk : List Char) :
    StreamCore × List Char :=
  let p := splitNlRaw (st.2 ++ chunk)
  (p.1.foldl (fun c l => handleLine c (stripCR l)) st.1, p.2)

/-- Initial consumer state: empty accumulated text, empty line buffer. -/
def initConsumer : StreamCore × List Char := (⟨[], []⟩, [])

/-- The whole read loop (Phase 1) over a list of decoded transport chunks.
When `done` fires the loop just breaks: whatever is left in the line buffer
is returned unprocessed. -/
def runChunks (chunks : List (List Char)) : StreamCore × List Char :=
  chunks.foldl processChunk initConsumer

/-- The anchor patterns of `extractJson` (`src/unnamed/part_001` line 27). -/
def anchorKeys : List (List Char) :=
  [toL "\x7b\"workflow\"", toL "\x7b\"nodes\"", toL "\x7b\"requirements\"",
   toL "\x7b\"last_node_id\"", toL "\x7b\"lines\""]

/-- Earliest anchor occurrence (`bestStartIndex`, lines 29–37). -/
def bestAnchor (text : List Char) : Option Nat :=
  anchorKeys.foldl
    (fun best pat =>
      match findSubIdx text pat, best with
      | some i, some b => if i < b then some i else some b
      | some i, none => some i
      | none, b => b)
    none

/-- JavaScript `text.indexOf(c)` for one character. -/
def firstIdxOf (c : Char) (text : List Char) : Option Nat := findSubIdx text [c]

/-- JavaScript `text.lastIndexOf(c)` for one character. -/
def lastIdxOf (c : Char) (text : List Char) : Option Nat :=
  (findSubIdx text.reverse [c]).map (fun j => text.length - 1 - j)

/-- JavaScript `text.substring(start, stop)` (for `start ≤ stop`). -/
def sliceL (text : List Char) (start stop : Nat) : List Char :=
  (text.drop start).take (stop - start)

/-- The error thrown by `extractJson` when no payload span is found. -/
def noJsonMsg : String := "No valid JSON object found in LLM response."

/--
`extractJson` (`src/unnamed/part_001` lines 17–77):
strategy 1 — marker split (`text.split(marker)`, taking `parts[1]`, i.e. the
segment between the first and second marker occurrence, trimmed);
strategy 2 — earliest anchor plus balanced scan;
strategy 3 — first `{` to last `}`, requiring the `}` after the `{`;
otherwise a thrown error. -/
def extractJson (text : List Char) : Except String (List Char) :=
  match splitFirst markerL text with
  | some (_, post) =>
    let part1 := match splitFirst markerL post with
      | some q => q.1
      | none => post
    .ok (trimL part1)
  | none =>
    let viaAnchor : Option (List Char) :=
      match bestAnchor text with
      | some i =>
        match scanBalanced text i with
        | some e => some (sliceL text i (e + 1))
        | none => none
      | none => none
    match viaAnchor with
    | some s => .ok s
    | none =>
      match firstIdxOf '{' text, lastIdxOf '}' text with
      | some i, some j => if i < j then .ok (sliceL text i (j + 1)) else .error noJsonMsg
      | some _, none => .error noJsonMsg
      | none, _ => .error noJsonMsg

/-- The `workflow` key. -/
def wfK : List Char := toL "workflow"

/-- The `requirements` key. -/
def reqK : List Char := toL "requirements"

/-- The `nodes` key. -/
def nodesK : List Char := toL "nodes"

/-- The `links` key. -/
def linksK : List Char := toL "links"

/-- The default `{ models: [], custom_nodes: [] }` value. -/
def defaultReq : JVal := .obj [(toL "models", .arr []), (toL "custom_nodes", .arr [])]

/-- The value is JavaScript `null` (reading any property of it throws a
`TypeError`). -/
def isNullV : JVal → Bool
  | .null => true
  | _ => false

/--
Auto-repair of `generateWorkflowLocal`, `src/services/localLlmService.ts`
lines 252–267:

    if (!parsedData.workflow && (parsedData.nodes || parsedData.links ||
        Object.keys(parsedData).some(k => !isNaN(Number(k))))) {
      parsedData = { workflow: parsedData, requirements: { models: [], custom_nodes: [] } };
    }
    if (parsedData.workflow && !parsedData.requirements) {
      parsedData.requirements = { models: [], custom_nodes: [] };
    }
    if (!parsedData.workflow) throw new Error(...);

Returns the final `parsedData`.  A `null` input makes the very first property
read throw a `TypeError`, modelled as the `isNullV` guard. -/
def repairStructure (v : JVal) : Except Unit JVal :=
  if isNullV v then .error ()
  else
    let wrap := !truthyO (getProp v wfK) &&
      (truthyO (getProp v nodesK) || truthyO (getProp v linksK) ||
        (jsKeys v).any isNumericKeyStr)
    let v1 := if wrap then JVal.obj [(wfK, v), (reqK, defaultReq)] else v
    let v2 := if truthyO (getProp v1 wfK) && !truthyO (getProp v1 reqK)
              then setProp v1 reqK defaultReq else v1
    if truthyO (getProp v2 wfK) then .ok v2 else .error ()

/-- Auto-repair of the NDJSON pipeline, `src/unnamed/part_001` lines
202–217: identical to `repairStructure` but without the numeric-string key
heuristic. -/
def repairStructureNd (v : JVal) : Except Unit JVal :=
  if isNullV v then .error ()
  else
    let wrap := !truthyO (getProp v wfK) &&
      (truthyO (getProp v nodesK) || truthyO (getProp v linksK))
    let v1 := if wrap then JVal.obj [(wfK, v), (reqK, defaultReq)] else v
    let v2 := if truthyO (getProp v1 wfK) && !truthyO (getProp v1 reqK)
              then setProp v1 reqK defaultReq else v1
    if truthyO (getProp v2 wfK) then .ok v2 else .error ()

/-- Remove every (non-overlapping, left to right) occurrence of `pat`:
JavaScript `text.replace(/pat/g, '')` for a fixed non-empty pattern.  The
fuel is always sufficient because each step removes at least one character. -/
def replaceAllAux (pat : List Char) : Nat → List Char → List Char
  | 0, text => text
  | fuel + 1, text =>
    match splitFirst pat text with
    | some (a, b) => a ++ replaceAllAux pat fuel b
    | none => text

/-- JavaScript `text.replace(/pat/g, '')`. -/
def replaceAllSub (pat text : List Char) : List Char :=
  replaceAllAux pat (text.length + 1) text

/-- Line 191 / line 237 cleanup:
`jsonString.replace(/```json/g, '').replace(/```/g, '').trim()`. -/
def stripFences (l : List Char) : List Char :=
  trimL (replaceAllSub (toL "```") (replaceAllSub (toL "```json") l))

/-- The `{ thoughts, workflow, requirements }` value returned to the caller. -/
structure FinalRes where
  thoughts : List Char
  workflow : JVal
  requirements : JVal

/--
Phase 2 of `generateWorkflowLocal` (`src/unnamed/part_001` lines 171–223):
surgical extraction, thoughts split at `fullText.indexOf(jsonString)` with
the marker stripped, fence cleanup, `JSON.parse`, auto-repair, and the final
destructuring (`thoughts || "No thoughts captured."`). -/
def finalizeNd (fullText : List Char) : Except String FinalRes :=
  match extractJson fullText with
  | .error _ => .error "The AI replied, but no valid ComfyUI JSON could be identified."
  | .ok js0 =>
    let thoughts1 :=
      match findSubIdx fullText js0 with
      | some i => trimL (removeFirst markerL (trimL (fullText.take i)))
      | none => fullText
    match parseJson (stripFences js0) with
    | none => .error "JSON Syntax Error"
    | some v =>
      match repairStructureNd v with
      | .error _ => .error "Invalid workflow structure received from AI."
      | .ok v2 =>
        .ok { thoughts := if thoughts1.isEmpty then toL "No thoughts captured." else thoughts1
              workflow := (getProp v2 wfK).getD .null
              requirements := (getProp v2 reqK).getD .null }

/-- The whole streaming call on decoded transport chunks: Phase 1 (stream
loop) followed by Phase 2 (extraction, parse, repair). -/
def pipelineNd (chunks : List (List Char)) : Except String FinalRes :=
  finalizeNd (runChunks chunks).1.fullText

/-- The literal `<thinking>`. -/
def openTagL : List Char := toL "<thinking>"

/-- The literal `</thinking>`. -/
def closeTagL : List Char := toL "</thinking>"

/--
Thoughts extraction of `extractContentFromText`
(`src/services/localLlmService.ts` lines 14–22):

    let cleanText = text.trim();
    const thinkingMatch = cleanText.match(/<thinking>([\s\S]*?)<\/thinking>/);
    if (thinkingMatch && thinkingMatch[1]) {
      thoughts = thinkingMatch[1].trim();
      cleanText = cleanText.replace(thinkingMatch[0], '').trim();
    }

The regex takes the first `<thinking>` and the lazily-first `</thinking>`
after it; an empty capture group is falsy, so an empty block is left in
place.  Returns `(thoughts, cleanText)`. -/
def thinkingSplit (text : List Char) : Option (List Char) × List Char :=
  match splitFirst openTagL (trimL text) with
  | none => (none, trimL text)
  | some p =>
    match splitFirst closeTagL p.2 with
    | none => (none, trimL text)
    | some q =>
      if q.1.isEmpty then (none, trimL text)
      else (some (trimL q.1),
        trimL (removeFirst (openTagL ++ q.1 ++ closeTagL) (trimL text)))

/-- The requested workflow serialisation format. -/
inductive WFormat where
  | graph : WFormat
  | api : WFormat

/-- The `error` key. -/
def errK : List Char := toL "error"

/--
Post-parse validation of `generateWorkflow`
(`src/services/geminiService.ts` lines 140–157):

    if (parsedResponse.error) throw ...;
    if (!parsedResponse.workflow || !parsedResponse.requirements) throw ...;
    if (format === 'graph') {
      const wf = parsedResponse.workflow;
      if (!wf.nodes || !wf.links) throw ...;
    }
    return parsedResponse;

A `null` parse result makes the first property read throw (`TypeError`). -/
def checkParsedResponse (v : JVal) (fmt : WFormat) : Except String JVal :=
  if isNullV v then .error "TypeError"
  else
    if truthyO (getProp v errK) then
      .error "The model could not generate a workflow"
    else if !truthyO (getProp v wfK) || !truthyO (getProp v reqK) then
      .error "Generated JSON is missing 'workflow' or 'requirements' top-level keys."
    else
      match fmt with
      | .graph =>
        if !truthyO (getProp ((getProp v wfK).getD .null) nodesK) ||
           !truthyO (getProp ((getProp v wfK).getD .null) linksK) then
          .error "Generated JSON is not a valid ComfyUI workflow (Graph format)."
        else .ok v
      | .api => .ok v

theorem scanAux_esc (c : Char) (cs : List Char) (i : Nat) (bal : Int) (ins : Bool) :
    scanAux (c :: cs) i bal ins true = scanAux cs (i + 1) bal ins false := by
  simp [scanAux]

theorem scanAux_bslash (cs : List Char) (i : Nat) (bal : Int) (ins : Bool) :
    scanAux ('\\' :: cs) i bal ins false = scanAux cs (i + 1) bal ins true := by
  simp [scanAux]

theorem scanAux_quote (cs : List Char) (i : Nat) (bal : Int) (ins : Bool) :
    scanAux ('"' :: cs) i bal ins false = scanAux cs (i + 1) bal (!ins) false := by
  simp [scanAux]

theorem scanAux_open (cs : List Char) (i : Nat) (bal : Int) :
    scanAux ('{' :: cs) i bal false false = scanAux cs (i + 1) (bal + 1) false false := by
  simp [scanAux]

theorem scanAux_close (cs : List Char) (i : Nat) (bal : Int) :
    scanAux ('}' :: cs) i bal false false =
      if bal - 1 = 0 then some i else scanAux cs (i + 1) (bal - 1) false false := by
  simp [scanAux]

theorem scanAux_plain_out (c : Char) (cs : List Char) (i : Nat) (bal : Int)
    (h1 : c ≠ '{') (h2 : c ≠ '}') (h3 : c ≠ '"') (h4 : c ≠ '\\') :
    scanAux (c :: cs) i bal false false = scanAux cs (i + 1) bal false false := by
  simp [scanAux, h1, h2, h3, h4]

theorem scanAux_plain_in (c : Char) (cs : List Char) (i : Nat) (bal : Int)
    (h3 : c ≠ '"') (h4 : c ≠ '\\') :
    scanAux (c :: cs) i bal true false = scanAux cs (i + 1) bal true false := by
  simp [scanAux, h3, h4]

/-- Inside a string literal the scan is a pure cursor move: a `StrBody`
segment changes neither the balance nor the string/escape flags. -/
theorem strBody_neutral {b : List Char} (hb : StrBody b) :
    ∀ (cs : List Char) (i : Nat) (bal : Int),
      scanAux (b ++ cs) i bal true false = scanAux cs (i + b.length) bal true false := by
  induction hb with
  | nil => intro cs i bal; simp
  | plain c h1 h2 hs ih =>
    intro cs i bal
    rw [List.cons_append, scanAux_plain_in c _ i bal h1 h2, ih]
    congr 1
    simp; omega
  | esc c hs ih =>
    intro cs i bal
    rw [List.cons_append, List.cons_append, scanAux_bslash, scanAux_esc, ih]
    congr 1
    simp; omega

/-- Outside string literals, brace-balanced text never closes the brace
opened before it: at depth at least one it is a pure cursor move. -/
theorem balText_neutral {s : List Char} (hs : BalText s) :
    ∀ (cs : List Char) (i : Nat) (bal : Int), 1 ≤ bal →
      scanAux (s ++ cs) i bal false false = scanAux cs (i + s.length) bal false false := by
  induction hs with
  | nil => intro cs i bal _; simp
  | str hb hs ih =>
    intro cs i bal hbal
    simp only [List.cons_append, List.append_assoc]
    rw [scanAux_quote]
    simp only [Bool.not_false]
    rw [strBody_neutral hb, scanAux_quote]
    simp only [Bool.not_true]
    rw [ih _ _ _ hbal]
    congr 1
    simp [List.length_append]; omega
  | plain c h1 h2 h3 h4 hs ih =>
    intro cs i bal hbal
    rw [List.cons_append, scanAux_plain_out c _ i bal h1 h2 h3 h4, ih _ _ _ hbal]
    congr 1
    simp; omega
  | nest hs ht ihs iht =>
    intro cs i bal hbal
    simp only [List.cons_append, List.append_assoc]
    rw [scanAux_open, ihs _ _ _ (by omega), scanAux_close, if_neg (by omega)]
    have hb1 : bal + 1 - 1 = bal := by omega
    rw [hb1, iht _ _ _ hbal]
    congr 1
    simp [List.length_append]; omega

/-- C1 — Brace-balanced locator correctness: for every text consisting of
arbitrary characters `pre`, then a well-formed JSON object (an opening `{`,
brace-balanced inner text `inner` — whose string literals may contain
literal `{`/`}`, escaped quotes and escaped backslashes — and its matching
`}`), then arbitrary trailing characters `rest`, the balanced-brace scan
started at offset `pre.length` (the start brace, whether found as the first
brace or as an anchor offset) returns exactly the index of the closing `}`
that brings the depth opened at the start brace back to zero, counting
braces only outside string literals and treating a backslash as escaping
the next character. -/
theorem locator_returns_matching_close (pre inner rest : List Char)
    (h : BalText inner) :
    scanBalanced (pre ++ ('{' :: inner ++ '}' :: rest)) pre.length =
      some (pre.length + inner.length + 1) := by
  unfold scanBalanced
  rw [List.drop_left pre ('{' :: inner ++ '}' :: rest)]
  rw [List.cons_append, scanAux_open, balText_neutral h _ _ _ (by omega), scanAux_close,
    if_pos (by omega)]
  congr 1
  omega

/-- C1 witness: the locator applied to `x {"}"} y` — a string value holding
a literal `}` — returns index 6, the matching close, not the brace inside
the string at index 3. -/
theorem locator_returns_matching_close_witness :
    scanBalanced (toL "x \x7b\"\x7d\"\x7d y") 2 = some 6 := by
  have hbal : BalText (toL "\"\x7d\"") :=
    BalText.str (b := ['}'])
      (StrBody.plain '}' (by decide) (by decide) StrBody.nil) BalText.nil
  have h := locator_returns_matching_close (toL "x ") (toL "\"\x7d\"") (toL " y") hbal
  have e1 : toL "x " ++ ('{' :: toL "\"\x7d\"" ++ '}' :: toL " y") = toL "x \x7b\"\x7d\"\x7d y" := by
    decide
  rw [e1] at h
  simpa using h

theorem leadsWith_iff (pat : List Char) :
    ∀ l, leadsWith pat l = true ↔ ∃ t, l = pat ++ t := by
  induction pat with
  | nil => intro l; simp [leadsWith]
  | cons p ps ih =>
    intro l
    cases l with
    | nil => simp [leadsWith]
    | cons c cs =>
      simp only [leadsWith, Bool.and_eq_true, decide_eq_true_eq, ih cs]
      constructor
      · rintro ⟨rfl, t, rfl⟩; exact ⟨t, rfl⟩
      · rintro ⟨t, h⟩
        rw [List.cons_append] at h
        injection h with h1 h2
        exact ⟨h1.symm, t, h2⟩

theorem splitFirst_eq (pat : List Char) :
    ∀ text a b, splitFirst pat text = some (a, b) → text = a ++ pat ++ b := by
  intro text
  induction text with
  | nil =>
    intro a b h
    by_cases hp : pat = []
    · subst hp; simp [splitFirst] at h; simp [h.1, h.2]
    · simp [splitFirst, hp] at h
  | cons c cs ih =>
    intro a b h
    by_cases hl : leadsWith pat (c :: cs) = true
    · rw [splitFirst, if_pos hl] at h
      injection h with h'
      obtain ⟨t, ht⟩ := (leadsWith_iff pat (c :: cs)).1 hl
      injection h' with h1 h2
      subst h1
      rw [ht] at h2 ⊢
      rw [List.drop_left] at h2
      rw [← h2]
      simp
    · rw [splitFirst, if_neg hl] at h
      cases hsf : splitFirst pat cs with
      | none => rw [hsf] at h; cases h
      | some p =>
        rw [hsf] at h
        injection h with h'
        injection h' with h1 h2
        subst h1; subst h2
        have := ih p.1 p.2 (by rw [hsf])
        rw [this]
        simp

theorem splitFirst_min (pat : List Char) :
    ∀ text a b, splitFirst pat text = some (a, b) →
      ∀ a2 b2, text = a2 ++ pat ++ b2 → a.length ≤ a2.length := by
  intro text
  induction text with
  | nil =>
    intro a b h a2 b2 _
    by_cases hp : pat = []
    · subst hp; simp [splitFirst] at h; simp [h.1]
    · simp [splitFirst, hp] at h
  | cons c cs ih =>
    intro a b h a2 b2 he
    by_cases hl : leadsWith pat (c :: cs) = true
    · rw [splitFirst, if_pos hl] at h
      injection h with h'
      injection h' with h1 _
      subst h1
      simp
    · rw [splitFirst, if_neg hl] at h
      cases hsf : splitFirst pat cs with
      | none => rw [hsf] at h; cases h
      | some p =>
        rw [hsf] at h
        injection h with h'
        injection h' with h1 h2
        subst h1; subst h2
        cases a2 with
        | nil =>
          exfalso
          apply hl
          rw [(leadsWith_iff pat (c :: cs))]
          exact ⟨b2, by simpa using he⟩
        | cons c2 a2' =>
          rw [List.cons_append, List.cons_append] at he
          injection he with he1 he2
          have := ih p.1 p.2 (by rw [hsf]) a2' b2 he2
          simpa using Nat.succ_le_succ this

theorem splitFirst_of_append (pat : List Char) :
    ∀ a b, (splitFirst pat (a ++ pat ++ b)).isSome = true := by
  intro a
  induction a with
  | nil =>
    intro b
    simp only [List.nil_append]
    cases hp : pat ++ b with
    | nil =>
      have hpe : pat = [] := by
        cases pat with
        | nil => rfl
        | cons x xs => simp at hp
      simp only [splitFirst, if_pos hpe]
      simp
    | cons c cs =>
      have hl : leadsWith pat (c :: cs) = true := by
        rw [leadsWith_iff]; exact ⟨b, hp.symm⟩
      simp only [splitFirst, if_pos hl]
      simp
  | cons c a' ih =>
    intro b
    rw [List.cons_append, List.cons_append]
    simp only [splitFirst]
    by_cases hl : leadsWith pat (c :: (a' ++ pat ++ b)) = true
    · rw [if_pos hl]; simp
    · rw [if_neg hl]
      have := ih b
      cases hsf : splitFirst pat (a' ++ pat ++ b) with
      | none => rw [hsf] at this; simp at this
      | some p => simp

/-- C2 counterexample: on an input containing the sentinel twice, the
extractor returns the segment between the first and the second marker
occurrence (`text.split(marker)[1]`), not everything after the (first)
marker, so the payload is not "everything after the marker". -/
theorem marker_split_not_suffix :
    extractJson (toL "A###JSON_START###B###JSON_START###C") = .ok (toL "B") ∧
    toL "B" ≠ toL "B###JSON_START###C" := by
  constructor
  · rfl
  · decide

/-- C2 amended — Sentinel marker precedence and split semantics: for every
input text containing the sentinel token `###JSON_START###`, the extractor
uses the marker-based split and it takes precedence over the key-anchored
scan and the first/last-brace fallback (no other strategy is consulted,
whatever else the text contains); the payload is the text after the first
marker occurrence, truncated at the next marker occurrence if there is one,
and trimmed of surrounding whitespace (the reasoning prefix — everything
before the first marker — is recovered separately by the callers). -/
theorem marker_split_takes_precedence (text a b : List Char)
    (h : splitFirst markerL text = some (a, b)) :
    extractJson text = .ok (trimL (((splitFirst markerL b).map Prod.fst).getD b)) := by
  unfold extractJson
  rw [h]
  show Except.ok (trimL (match splitFirst markerL b with
    | some q => q.1
    | none => b)) = _
  cases h2 : splitFirst markerL b with
  | none => rfl
  | some q => rfl

/-- C2 witness: a concrete marker-bearing text, split at the marker and
trimmed. -/
theorem marker_split_takes_precedence_witness :
    extractJson (toL "think###JSON_START### \x7b\"a\":1\x7d") = .ok (toL "\x7b\"a\":1\x7d") := by
  have h := marker_split_takes_precedence (toL "think###JSON_START### \x7b\"a\":1\x7d")
    (toL "think") (toL " \x7b\"a\":1\x7d") (by decide)
  exact h

/-- C5 counterexample: the input `"{"` contains a `{`, so per the claim the
extractor should not hit the hard-failure case (reserved for texts with no
`{` at all) and should take a fallback span; the code instead throws the
no-JSON-object-found error because no `}` follows the first `{`. -/
theorem fallback_error_with_brace :
    extractJson (toL "\x7b") = .error noJsonMsg ∧ ('{' ∈ toL "\x7b") := by
  constructor
  · rfl
  · decide

/-- C5 amended — Fallback span and hard failure: for every input text in
which the sentinel is absent and no anchor-key match yields a balanced
object, the extractor takes the substring from the first `{` to the last `}`
of the entire text as the payload whenever that last `}` lies strictly after
the first `{`, and it fails with the no-JSON-object-found error both when
the text contains no `{` at all and when no `}` follows the first `{`. -/
theorem fallback_span_and_failure (text : List Char)
    (hm : splitFirst markerL text = none)
    (ha : bestAnchor text = none ∨
      ∃ i, bestAnchor text = some i ∧ scanBalanced text i = none) :
    (∀ i j, firstIdxOf '{' text = some i → lastIdxOf '}' text = some j →
      i < j → extractJson text = .ok (sliceL text i (j + 1))) ∧
    (∀ i j, firstIdxOf '{' text = some i → lastIdxOf '}' text = some j →
      j ≤ i → extractJson text = .error noJsonMsg) ∧
    (∀ i, firstIdxOf '{' text = some i → lastIdxOf '}' text = none →
      extractJson text = .error noJsonMsg) ∧
    (firstIdxOf '{' text = none → extractJson text = .error noJsonMsg) := by
  have key : extractJson text =
      (match firstIdxOf '{' text, lastIdxOf '}' text with
        | some i, some j =>
          if i < j then Except.ok (sliceL text i (j + 1)) else Except.error noJsonMsg
        | some _, none => Except.error noJsonMsg
        | none, _ => Except.error noJsonMsg) := by
    unfold extractJson
    rw [hm]
    rcases ha with h1 | ⟨i, h1, h2⟩
    · simp only [h1]
    · simp only [h1, h2]
  refine ⟨?_, ?_, ?_, ?_⟩
  · intro i j hi hj hij
    rw [key, hi, hj]
    simp [hij]
  · intro i j hi hj hij
    have hnlt : ¬ i < j := by omega
    rw [key, hi, hj]
    simp [hnlt]
  · intro i hi hj
    rw [key, hi, hj]
  · intro hi
    rw [key, hi]

/-- C5 witness: a concrete anchor-free, marker-free text whose fallback span
runs from the first `{` to the last `}` (including the interior noise). -/
theorem fallback_span_and_failure_witness :
    extractJson (toL "a\x7bb\x7dc\x7d") = .ok (toL "\x7bb\x7dc\x7d") := by
  have h := (fallback_span_and_failure (toL "a\x7bb\x7dc\x7d") (by decide)
    (Or.inl (by decide))).1 1 5 (by decide) (by decide) (by decide)
  exact h

theorem lookupLast_append_last (fs : List (List Char × JVal)) (k : List Char) (d : JVal) :
    lookupLast (fs ++ [(k, d)]) k = some d := by
  induction fs with
  | nil => simp [lookupLast]
  | cons p fs ih =>
    obtain ⟨k', v'⟩ := p
    rw [List.cons_append, lookupLast, ih]

theorem lookupLast_append_other (fs : List (List Char × JVal)) (k k2 : List Char)
    (d : JVal) (h : k ≠ k2) :
    lookupLast (fs ++ [(k, d)]) k2 = lookupLast fs k2 := by
  induction fs with
  | nil => simp [lookupLast, h]
  | cons p fs ih =>
    obtain ⟨k', v'⟩ := p
    rw [List.cons_append, lookupLast, ih, lookupLast]

theorem lookupLast_map_replace_none (fs : List (List Char × JVal)) (k : List Char)
    (d : JVal) (h : fs.any (fun p => p.1 = k) = false) :
    lookupLast (fs.map (fun p => if p.1 = k then (k, d) else p)) k = none := by
  induction fs with
  | nil => simp [lookupLast]
  | cons p fs ih =>
    obtain ⟨k', v'⟩ := p
    simp only [List.any_cons, Bool.or_eq_false_iff] at h
    obtain ⟨h1, h2⟩ := h
    simp only [decide_eq_false_iff_not] at h1
    rw [List.map_cons, if_neg h1, lookupLast, ih h2, if_neg h1]

theorem lookupLast_map_replace_some (fs : List (List Char × JVal)) (k : List Char)
    (d : JVal) (h : fs.any (fun p => p.1 = k) = true) :
    lookupLast (fs.map (fun p => if p.1 = k then (k, d) else p)) k = some d := by
  induction fs with
  | nil => simp at h
  | cons p fs ih =>
    obtain ⟨k', v'⟩ := p
    by_cases hf : fs.any (fun p => p.1 = k) = true
    · rw [List.map_cons, lookupLast, ih hf]
    · have hk : k' = k := by
        simp only [List.any_cons, Bool.or_eq_true_iff, decide_eq_true_eq] at h
        rcases h with h | h
        · exact h
        · exact absurd h hf
      subst hk
      have hf2 : (fs.any fun p => p.1 = k') = false := by
        cases hx : fs.any fun p => p.1 = k'
        · rfl
        · exact absurd hx hf
      rw [List.map_cons]
      rw [if_pos rfl]
      rw [lookupLast]
      rw [lookupLast_map_replace_none fs k' d hf2]
      simp

theorem lookupLast_map_replace_other (fs : List (List Char × JVal)) (k k2 : List Char)
    (d : JVal) (h : k ≠ k2) :
    lookupLast (fs.map (fun p => if p.1 = k then (k, d) else p)) k2 =
      lookupLast fs k2 := by
  induction fs with
  | nil => simp [lookupLast]
  | cons p fs ih =>
    obtain ⟨k', v'⟩ := p
    by_cases hk : k' = k
    · subst hk
      rw [List.map_cons, if_pos rfl, lookupLast, ih, lookupLast, if_neg h, if_neg h]
    · rw [List.map_cons, if_neg hk, lookupLast, ih, lookupLast]

theorem getProp_setProp_self (fs : List (List Char × JVal)) (k : List Char) (d : JVal) :
    getProp (setProp (JVal.obj fs) k d) k = some d := by
  by_cases h : fs.any (fun p => p.1 = k) = true
  · simp only [setProp, if_pos h, getProp]
    exact lookupLast_map_replace_some fs k d h
  · simp only [setProp, if_neg h, getProp]
    exact lookupLast_append_last fs k d

theorem getProp_setProp_other (fs : List (List Char × JVal)) (k k2 : List Char)
    (d : JVal) (h : k ≠ k2) :
    getProp (setProp (JVal.obj fs) k d) k2 = getProp (JVal.obj fs) k2 := by
  by_cases hany : fs.any (fun p => p.1 = k) = true
  · simp only [setProp, if_pos hany, getProp]
    exact lookupLast_map_replace_other fs k k2 d h
  · simp only [setProp, if_neg hany, getProp]
    exact lookupLast_append_other fs k k2 d h

/-- A truthy property read is only possible on an object, hence on a
non-`null` value. -/
theorem not_null_of_truthy_prop (v : JVal) (k : List Char)
    (h : truthyO (getProp v k) = true) : isNullV v = false := by
  cases v <;> simp [getProp, truthyO, isNullV] at h ⊢

/-- A truthy property read is only possible on an object. -/
theorem exists_fields_of_truthy_prop (v : JVal) (k : List Char)
    (h : truthyO (getProp v k) = true) : ∃ fs, v = JVal.obj fs := by
  cases v with
  | obj fields => exact ⟨fields, rfl⟩
  | null => simp [getProp, truthyO] at h
  | bool b => simp [getProp, truthyO] at h
  | num lit => simp [getProp, truthyO] at h
  | str s => simp [getProp, truthyO] at h
  | arr l => simp [getProp, truthyO] at h

/-- Any value that passes the wrap probe (a truthy `nodes` or `links`
property, or a numeric-string own key) is itself truthy. -/
theorem truthy_of_probe (v : JVal)
    (h : (truthyO (getProp v nodesK) || truthyO (getProp v linksK) ||
      (jsKeys v).any isNumericKeyStr) = true) : truthy v = true := by
  cases v with
  | null => simp [getProp, truthyO, jsKeys] at h
  | bool b => simp [getProp, truthyO, jsKeys] at h
  | num lit => simp [getProp, truthyO, jsKeys] at h
  | str s =>
    cases s with
    | nil => simp [getProp, truthyO, jsKeys] at h
    | cons c cs => simp [truthy]
  | arr l => simp [truthy]
  | obj fields => simp [truthy]

theorem getProp_canonical_wf (x y : JVal) :
    getProp (JVal.obj [(wfK, x), (reqK, y)]) wfK = some x := by
  have h : reqK ≠ wfK := by decide
  simp [getProp, lookupLast, h]

theorem getProp_canonical_req (x y : JVal) :
    getProp (JVal.obj [(wfK, x), (reqK, y)]) reqK = some y := by
  simp [getProp, lookupLast]

theorem getProp_graphpair_wf (x y : JVal) :
    getProp (JVal.obj [(nodesK, x), (linksK, y)]) wfK = none := by
  have h1 : nodesK ≠ wfK := by decide
  have h2 : linksK ≠ wfK := by decide
  simp [getProp, lookupLast, h1, h2]

theorem getProp_graphpair_nodes (x y : JVal) :
    getProp (JVal.obj [(nodesK, x), (linksK, y)]) nodesK = some x := by
  have h : linksK ≠ nodesK := by decide
  simp [getProp, lookupLast, h]

theorem getProp_graphpair_links (x y : JVal) :
    getProp (JVal.obj [(nodesK, x), (linksK, y)]) linksK = some y := by
  simp [getProp, lookupLast]

theorem truthy_defaultReq : truthy defaultReq = true := rfl

theorem truthyO_some (v : JVal) : truthyO (some v) = truthy v := rfl

theorem truthyO_none : truthyO none = false := rfl

/-- Every successful output of the repairer has a truthy `workflow` and a
truthy `requirements` property. -/
theorem repairStructure_ok_props (x y : JVal) (h : repairStructure x = .ok y) :
    truthyO (getProp y wfK) = true ∧ truthyO (getProp y reqK) = true := by
  by_cases hn : isNullV x = true
  · rw [repairStructure, if_pos hn] at h
    cases h
  · rw [repairStructure, if_neg hn] at h
    cases ha : truthyO (getProp x wfK) with
    | true =>
      cases hr : truthyO (getProp x reqK) with
      | true =>
        simp only [ha, hr, Bool.not_true, Bool.and_false, Bool.false_and,
          Bool.false_eq_true, if_false, Bool.true_and, if_true] at h
        injection h with h
        subst h
        exact ⟨ha, hr⟩
      | false =>
        obtain ⟨fs, rfl⟩ := exists_fields_of_truthy_prop x wfK ha
        have e1 : getProp (setProp (JVal.obj fs) reqK defaultReq) wfK =
            getProp (JVal.obj fs) wfK :=
          getProp_setProp_other fs reqK wfK defaultReq (by decide)
        simp only [ha, hr, Bool.not_true, Bool.not_false, Bool.and_false,
          Bool.false_and, Bool.false_eq_true, if_false, Bool.true_and,
          Bool.and_true, if_true, e1] at h
        injection h with h
        subst h
        rw [e1, getProp_setProp_self]
        exact ⟨ha, rfl⟩
    | false =>
      cases hp : (truthyO (getProp x nodesK) || truthyO (getProp x linksK) ||
          (jsKeys x).any isNumericKeyStr) with
      | true =>
        have htr : truthy x = true := truthy_of_probe x hp
        have e1 := getProp_canonical_wf x defaultReq
        have e2 := getProp_canonical_req x defaultReq
        simp only [ha, hp, Bool.not_false, Bool.true_and, if_true, e1, e2,
          truthyO_some, htr, truthy_defaultReq, Bool.not_true, Bool.and_false,
          Bool.false_eq_true, if_false] at h
        injection h with h
        subst h
        rw [e1, e2]
        simp [truthyO_some, htr, truthy_defaultReq]
      | false =>
        simp only [ha, hp, Bool.not_false, Bool.true_and, Bool.false_eq_true,
          if_false, Bool.false_and] at h
        cases h

/-- C3 counterexample: the object `{"nodes": 0}` lacks `workflow` and has a
`nodes` key, so per the claim the repairer should wrap it; the code tests
JavaScript truthiness, `0` is falsy, no other rule applies, and the call
fails with the no-workflow-found error instead. -/
theorem repairer_rules_nodes_key_not_enough :
    repairStructure (JVal.obj [(nodesK, JVal.num (toL "0"))]) = .error () ∧
    (getProp (JVal.obj [(nodesK, JVal.num (toL "0"))]) nodesK).isSome = true := by
  exact ⟨rfl, rfl⟩

/-- C3 amended — Structural repairer postcondition (truthiness probes): for
every parsed JSON object, if its `workflow` value is falsy (absent, `null`,
`false`, `0` or `""`) but its `nodes` value is truthy, or its `links` value
is truthy, or at least one top-level key is a numeric string (in the
`!isNaN(Number(k))` sense, which also accepts the empty and whitespace-only
key), the repairer wraps the entire object as
`{ workflow: <object>, requirements: { models: [], custom_nodes: [] } }`;
if `workflow` is truthy but `requirements` is falsy, `requirements` is set
to the empty default; and if `workflow` is falsy and no probe fires, the
call fails with the no-workflow-found error rather than returning a partial
result. -/
theorem repairer_rules (l : List (List Char × JVal)) :
    (truthyO (getProp (JVal.obj l) wfK) = false →
      (truthyO (getProp (JVal.obj l) nodesK) || truthyO (getProp (JVal.obj l) linksK) ||
        (jsKeys (JVal.obj l)).any isNumericKeyStr) = true →
      repairStructure (JVal.obj l) =
        .ok (JVal.obj [(wfK, JVal.obj l), (reqK, defaultReq)])) ∧
    (truthyO (getProp (JVal.obj l) wfK) = true →
      truthyO (getProp (JVal.obj l) reqK) = false →
      repairStructure (JVal.obj l) = .ok (setProp (JVal.obj l) reqK defaultReq)) ∧
    (truthyO (getProp (JVal.obj l) wfK) = false →
      (truthyO (getProp (JVal.obj l) nodesK) || truthyO (getProp (JVal.obj l) linksK) ||
        (jsKeys (JVal.obj l)).any isNumericKeyStr) = false →
      repairStructure (JVal.obj l) = .error ()) := by
  have hn : ¬ isNullV (JVal.obj l) = true := by simp [isNullV]
  have htr : truthy (JVal.obj l) = true := rfl
  refine ⟨?_, ?_, ?_⟩
  · intro hw hc
    rw [repairStructure, if_neg hn]
    simp only [hw, hc, Bool.not_false, Bool.true_and, if_true,
      getProp_canonical_wf, getProp_canonical_req, truthyO_some, htr,
      truthy_defaultReq, Bool.not_true, Bool.and_false, Bool.false_eq_true,
      if_false]
  · intro hw hr
    have e1 : getProp (setProp (JVal.obj l) reqK defaultReq) wfK =
        getProp (JVal.obj l) wfK :=
      getProp_setProp_other l reqK wfK defaultReq (by decide)
    rw [repairStructure, if_neg hn]
    simp only [hw, hr, Bool.not_true, Bool.false_and, Bool.false_eq_true,
      if_false, Bool.not_false, Bool.true_and, Bool.and_true, if_true, e1]
  · intro hw hc
    rw [repairStructure, if_neg hn]
    simp only [hw, hc, Bool.not_false, Bool.true_and, Bool.false_eq_true,
      if_false, Bool.false_and]

/-- C3 witness: an API-format-looking object whose only key is the numeric
string `"5"` is wrapped. -/
theorem repairer_rules_witness :
    repairStructure (JVal.obj [(toL "5", JVal.arr [])]) =
      .ok (JVal.obj [(wfK, JVal.obj [(toL "5", JVal.arr [])]), (reqK, defaultReq)]) := by
  exact (repairer_rules [(toL "5", JVal.arr [])]).1 rfl rfl

/-- C4 counterexample: `{"nodes": null, "links": null}` has the shape
`{nodes: N, links: L}` with `N = L = null`, so per the claim the repairer
should produce the wrapped canonical object; the code tests truthiness,
`null` is falsy, and the call fails instead. -/
theorem repair_idem_null_graph_fails :
    repairStructure (JVal.obj [(nodesK, JVal.null), (linksK, JVal.null)]) =
      .error () := by
  rfl

/-- C4 amended — Repair idempotence (truthiness probes): for every object
already in canonical shape `{ workflow: W, requirements: R }` with `W` and
`R` truthy, the repairer returns it unchanged; for every object of shape
`{ nodes: N, links: L }` with `N` or `L` truthy, it produces
`{ workflow: { nodes: N, links: L }, requirements: { models: [],
custom_nodes: [] } }`; and the repairer is idempotent on every success:
whenever `repair x = ok y`, also `repair y = ok y`. -/
theorem repair_canonical_and_idem :
    (∀ W R, truthy W = true → truthy R = true →
      repairStructure (JVal.obj [(wfK, W), (reqK, R)]) =
        .ok (JVal.obj [(wfK, W), (reqK, R)])) ∧
    (∀ N L, (truthy N || truthy L) = true →
      repairStructure (JVal.obj [(nodesK, N), (linksK, L)]) =
        .ok (JVal.obj [(wfK, JVal.obj [(nodesK, N), (linksK, L)]), (reqK, defaultReq)])) ∧
    (∀ x y, repairStructure x = .ok y → repairStructure y = .ok y) := by
  refine ⟨?_, ?_, ?_⟩
  · intro W R hW hR
    have hw : truthyO (getProp (JVal.obj [(wfK, W), (reqK, R)]) wfK) = true := by
      rw [getProp_canonical_wf, truthyO_some, hW]
    have hr : truthyO (getProp (JVal.obj [(wfK, W), (reqK, R)]) reqK) = true := by
      rw [getProp_canonical_req, truthyO_some, hR]
    rw [repairStructure, if_neg (by simp [isNullV])]
    simp only [hw, hr, Bool.not_true, Bool.false_and, Bool.and_false,
      Bool.false_eq_true, if_false, Bool.true_and, if_true]
  · intro N L hNL
    have hw : truthyO (getProp (JVal.obj [(nodesK, N), (linksK, L)]) wfK) = false := by
      rw [getProp_graphpair_wf, truthyO_none]
    have hp : (truthyO (getProp (JVal.obj [(nodesK, N), (linksK, L)]) nodesK) ||
        truthyO (getProp (JVal.obj [(nodesK, N), (linksK, L)]) linksK) ||
        (jsKeys (JVal.obj [(nodesK, N), (linksK, L)])).any isNumericKeyStr) = true := by
      rw [getProp_graphpair_nodes, getProp_graphpair_links, truthyO_some,
        truthyO_some, hNL]
      simp
    exact (repairer_rules [(nodesK, N), (linksK, L)]).1 hw hp
  · intro x y h
    obtain ⟨hw, hr⟩ := repairStructure_ok_props x y h
    have hnn : ¬ isNullV y = true := by
      rw [not_null_of_truthy_prop y wfK hw]
      simp
    rw [repairStructure, if_neg hnn]
    simp only [hw, hr, Bool.not_true, Bool.false_and, Bool.and_false,
      Bool.false_eq_true, if_false, Bool.true_and, if_true]

/-- C4 witness: a concrete canonical object is returned unchanged. -/
theorem repair_canonical_and_idem_witness :
    repairStructure (JVal.obj [(wfK, JVal.obj []), (reqK, JVal.obj [])]) =
      .ok (JVal.obj [(wfK, JVal.obj []), (reqK, JVal.obj [])]) := by
  exact repair_canonical_and_idem.1 (JVal.obj []) (JVal.obj []) rfl rfl

theorem splitNlRaw_cons (c : Char) (cs : List Char) :
    splitNlRaw (c :: cs) =
      if c = '\n' then ([] :: (splitNlRaw cs).1, (splitNlRaw cs).2)
      else
        match (splitNlRaw cs).1 with
        | [] => ([], c :: (splitNlRaw cs).2)
        | l :: ls => ((c :: l) :: ls, (splitNlRaw cs).2) := by
  rw [splitNlRaw]

/-- Splitting a concatenation at newlines: the complete lines of `x` come
first, and the remainder of `x` is glued onto `y` before the rest is split. -/
theorem splitNlRaw_append (x y : List Char) :
    splitNlRaw (x ++ y) =
      ((splitNlRaw x).1 ++ (splitNlRaw ((splitNlRaw x).2 ++ y)).1,
        (splitNlRaw ((splitNlRaw x).2 ++ y)).2) := by
  induction x with
  | nil => simp [splitNlRaw]
  | cons c cs ih =>
    by_cases hc : c = '\n'
    · subst hc
      rw [List.cons_append, splitNlRaw_cons '\n' (cs ++ y), ih,
        splitNlRaw_cons '\n' cs]
      simp
    · rw [List.cons_append, splitNlRaw_cons c (cs ++ y), ih,
        splitNlRaw_cons c cs]
      simp only [if_neg hc]
      cases hA : (splitNlRaw cs).1 with
      | nil =>
        simp only [List.nil_append]
        rw [List.cons_append]
        rw [splitNlRaw_cons c ((splitNlRaw cs).2 ++ y)]
        simp only [if_neg hc]
      | cons l ls =>
        simp [List.cons_append]

/-- Feeding a chunk split in two is the same as feeding it whole: per-chunk
line splitting composes. -/
theorem processChunk_append (st : StreamCore × List Char) (a b : List Char) :
    processChunk st (a ++ b) = processChunk (processChunk st a) b := by
  unfold processChunk
  rw [← List.append_assoc, splitNlRaw_append (st.2 ++ a) b]
  simp [List.foldl_append]

/-- Folding the consumer over a non-empty chunk list equals one shot over
the concatenation. -/
theorem foldl_processChunk_join (chunks : List (List Char)) :
    ∀ (st : StreamCore × List Char) (c : List Char),
      (c :: chunks).foldl processChunk st = processChunk st (c ++ chunks.flatten) := by
  induction chunks with
  | nil => intro st c; simp
  | cons d ds ih =>
    intro st c
    rw [List.foldl_cons, ih (processChunk st c) d, ← processChunk_append,
      List.flatten_cons]

theorem join_map_singleton (s : List Char) :
    (s.map (fun c => [c])).flatten = s := by
  induction s with
  | nil => rfl
  | cons c cs ih => simp [ih]

/-- C8 — Chunk-boundary invariance: for every decoded transport character
sequence, delivering it to the stream consumer one character per chunk
versus as one single chunk yields the identical final
`{ thoughts, workflow, requirements }` result of the whole streaming call
(Phase 1 line handling plus Phase 2 extraction, parse and repair): the
partition into chunks never changes the outcome.  (`TextDecoder` with
`stream: true` holds partial code points back, so byte-level chunking
reduces to character-level chunking.) -/
theorem pipeline_chunk_invariance (s : List Char) :
    pipelineNd (s.map (fun c => [c])) = pipelineNd [s] := by
  unfold pipelineNd
  cases s with
  | nil => rfl
  | cons c cs =>
    rw [runChunks, runChunks, List.map_cons,
      foldl_processChunk_join _ initConsumer [c], join_map_singleton,
      List.foldl_cons, List.foldl_nil]
    rfl

theorem splitNlRaw_no_newline (t : List Char) (h : '\n' ∉ t) :
    splitNlRaw t = ([], t) := by
  induction t with
  | nil => rfl
  | cons c cs ih =>
    simp only [List.mem_cons, not_or] at h
    rw [splitNlRaw_cons, if_neg (fun he => h.1 he.symm), ih h.2]

theorem splitNlRaw_snd_no_newline (x : List Char) : '\n' ∉ (splitNlRaw x).2 := by
  induction x with
  | nil => simp [splitNlRaw]
  | cons c cs ih =>
    rw [splitNlRaw_cons]
    by_cases hc : c = '\n'
    · rw [if_pos hc]; exact ih
    · rw [if_neg hc]
      cases hA : (splitNlRaw cs).1 with
      | nil =>
        simp only []
        intro hmem
        rcases List.mem_cons.1 hmem with h | h
        · exact hc h.symm
        · exact ih h
      | cons l ls => simpa using ih

theorem runChunks_snd_no_newline (chunks : List (List Char)) :
    '\n' ∉ (runChunks chunks).2 := by
  rw [runChunks]
  induction chunks using List.reverseRecOn with
  | nil => simp [initConsumer]
  | append_singleton ds d ih =>
    rw [List.foldl_append, List.foldl_cons, List.foldl_nil]
    unfold processChunk
    exact splitNlRaw_snd_no_newline _

/-- C6 amended — the trailing partial line is discarded: appending a final
chunk that contains no newline never changes the consumer's accumulated
state; in particular the text after the last newline of the transport output
does not contribute to the accumulated full text used for extraction. -/
theorem trailing_partial_line_discarded (chunks : List (List Char))
    (t : List Char) (h : '\n' ∉ t) :
    (runChunks (chunks ++ [t])).1 = (runChunks chunks).1 := by
  rw [runChunks, runChunks, List.foldl_append, List.foldl_cons, List.foldl_nil]
  have hb := runChunks_snd_no_newline chunks
  rw [runChunks] at hb
  unfold processChunk
  rw [splitNlRaw_no_newline _ (by
    intro hmem
    rcases List.mem_append.1 hmem with hm | hm
    · exact hb hm
    · exact h hm)]
  simp

/-- C6 witness: a stream closed after a newline-free trailing chunk leaves
the accumulated state unchanged. -/
theorem trailing_partial_line_discarded_witness :
    (runChunks [toL "\x7b\"type\":\"token\",\"data\":\"A\"\x7d\n", toL "\x7b\"type\":"]).1 =
      (runChunks [toL "\x7b\"type\":\"token\",\"data\":\"A\"\x7d\n"]).1 := by
  exact trailing_partial_line_discarded [toL "\x7b\"type\":\"token\",\"data\":\"A\"\x7d\n"]
    (toL "\x7b\"type\":") (by decide)

/-- C6 counterexample: a transport whose final chunk does not end with a
newline.  The second NDJSON record stays in the line buffer and the
accumulated text ends at `"A"`; running the same per-line handling on the
remaining buffered line would have produced `"AB"`, so the buffered partial
line demonstrably did not contribute. -/
theorem draining_does_not_flush :
    (runChunks [toL "\x7b\"type\":\"token\",\"data\":\"A\"\x7d\n\x7b\"type\":\"token\",\"data\":\"B\"\x7d"]).1.fullText
      = toL "A" ∧
    (handleLine
      (runChunks [toL "\x7b\"type\":\"token\",\"data\":\"A\"\x7d\n\x7b\"type\":\"token\",\"data\":\"B\"\x7d"]).1
      (stripCR (runChunks [toL "\x7b\"type\":\"token\",\"data\":\"A\"\x7d\n\x7b\"type\":\"token\",\"data\":\"B\"\x7d"]).2)).fullText
      = toL "AB" := by
  exact ⟨rfl, rfl⟩

/-- C7 counterexample: a whitespace-only complete line is skipped by
`if (!line.trim()) continue;` — it is not appended to the accumulated
content, although it fails structured decoding (`JSON.parse(" ")` throws). -/
theorem whitespace_line_skipped :
    handleLine ⟨toL "x", []⟩ [' '] = ⟨toL "x", []⟩ ∧
    parseJson [' '] = none ∧
    (toL "x" : List Char) ≠ toL "x" ++ [' '] := by
  refine ⟨rfl, rfl, by decide⟩

/-- C7 amended — Unrecognized lines are appended unless whitespace-only:
every complete transport line that is not whitespace-only and fails to
decode as JSON is appended to the accumulated content exactly as received;
whitespace-only lines are skipped before decoding, and lines that decode as
JSON but are neither `status` nor `token` records contribute nothing. -/
theorem undecodable_line_appended (core : StreamCore) (line : List Char)
    (h1 : (trimL line).isEmpty = false) (h2 : parseJson line = none) :
    handleLine core line = { core with fullText := core.fullText ++ line } := by
  unfold handleLine
  rw [if_neg (by rw [h1]; simp), h2]

/-- C7 witness: the undecodable line `hello` is appended raw. -/
theorem undecodable_line_appended_witness :
    handleLine ⟨[], []⟩ (toL "hello") = ⟨toL "hello", []⟩ := by
  exact undecodable_line_appended ⟨[], []⟩ (toL "hello") rfl rfl

/-- If the first occurrence of `pat1` is followed by `mid ++ pat2 ++ post`,
then the first occurrence of the whole block `pat1 ++ mid ++ pat2` starts at
the same offset: `replace` with the matched block removes exactly the match.
-/
theorem splitFirst_first_block (ct pre mid post pat1 pat2 : List Char)
    (h1 : splitFirst pat1 ct = some (pre, mid ++ pat2 ++ post)) :
    splitFirst (pat1 ++ mid ++ pat2) ct = some (pre, post) := by
  have hct : ct = pre ++ pat1 ++ (mid ++ pat2 ++ post) :=
    splitFirst_eq pat1 ct pre (mid ++ pat2 ++ post) h1
  have hct2 : ct = pre ++ (pat1 ++ mid ++ pat2) ++ post := by
    rw [hct]; simp [List.append_assoc]
  have hsome := splitFirst_of_append (pat1 ++ mid ++ pat2) pre post
  rw [← hct2] at hsome
  obtain ⟨p, hp⟩ := Option.isSome_iff_exists.1 hsome
  obtain ⟨a1, b1⟩ := p
  have hd : ct = a1 ++ (pat1 ++ mid ++ pat2) ++ b1 :=
    splitFirst_eq (pat1 ++ mid ++ pat2) ct a1 b1 hp
  have hle1 : a1.length ≤ pre.length :=
    splitFirst_min (pat1 ++ mid ++ pat2) ct a1 b1 hp pre post hct2
  have hd2 : ct = a1 ++ pat1 ++ (mid ++ pat2 ++ b1) := by
    rw [hd]; simp [List.append_assoc]
  have hle2 : pre.length ≤ a1.length :=
    splitFirst_min pat1 ct pre (mid ++ pat2 ++ post) h1 a1 (mid ++ pat2 ++ b1) hd2
  have hlen : a1.length = pre.length := Nat.le_antisymm hle1 hle2
  have e1 : a1 ++ ((pat1 ++ mid ++ pat2) ++ b1) = ct := by
    rw [hd]; simp [List.append_assoc]
  have e2 : pre ++ ((pat1 ++ mid ++ pat2) ++ post) = ct := by
    rw [hct2]; simp [List.append_assoc]
  obtain ⟨ha, hb⟩ := List.append_inj (e1.trans e2.symm) hlen
  subst ha
  have hb2 : b1 = post := List.append_cancel_left hb
  subst hb2
  exact hp

/-- C9 counterexample: an empty `<thinking></thinking>` block.  The capture
group is the empty string, which is falsy, so the code neither records the
(empty) trimmed thoughts nor removes the block — contradicting the claim for
this text. -/
theorem thinking_empty_block_ignored :
    thinkingSplit (toL "<thinking></thinking>\x7b\"a\":1\x7d") =
      (none, toL "<thinking></thinking>\x7b\"a\":1\x7d") ∧
    thinkingSplit (toL "<thinking></thinking>\x7b\"a\":1\x7d") ≠
      (some [], toL "\x7b\"a\":1\x7d") := by
  refine ⟨rfl, by decide⟩

/-- C9 amended — thinking-tag extraction in the non-streaming path: for
every non-streaming response text whose (trimmed) form contains a
`<thinking>…</thinking>` block with nonempty content — `pre` before the
first `<thinking>`, `body` the lazily-shortest content, `post` after the
first `</thinking>` — the extractor returns the trimmed `body` as the
thoughts value and removes exactly that block before locating the JSON
payload, leaving `trim (pre ++ post)` as the text in which the payload is
searched. -/
theorem thinking_block_extracted (text pre body post : List Char)
    (h1 : splitFirst openTagL (trimL text) = some (pre, body ++ closeTagL ++ post))
    (h2 : splitFirst closeTagL (body ++ closeTagL ++ post) = some (body, post))
    (h3 : body ≠ []) :
    thinkingSplit text = (some (trimL body), trimL (pre ++ post)) := by
  have hbe : body.isEmpty = false := by
    cases body with
    | nil => exact absurd rfl h3
    | cons c cs => rfl
  have hblock := splitFirst_first_block (trimL text) pre body post openTagL closeTagL h1
  unfold thinkingSplit
  rw [h1]
  show (match splitFirst closeTagL (body ++ closeTagL ++ post) with
    | none => ((none : Option (List Char)), trimL text)
    | some q =>
      if q.1.isEmpty then (none, trimL text)
      else (some (trimL q.1),
        trimL (removeFirst (openTagL ++ q.1 ++ closeTagL) (trimL text)))) = _
  rw [h2]
  show (if body.isEmpty then ((none : Option (List Char)), trimL text)
    else (some (trimL body),
      trimL (removeFirst (openTagL ++ body ++ closeTagL) (trimL text)))) = _
  rw [hbe]
  show (some (trimL body),
      trimL (removeFirst (openTagL ++ body ++ closeTagL) (trimL text))) = _
  rw [removeFirst, hblock]

/-- C9 witness: a concrete text with reasoning, one thinking block and a
JSON tail. -/
theorem thinking_block_extracted_witness :
    thinkingSplit (toL "Think: <thinking> use sdxl </thinking> \x7b\"workflow\":\x7b\x7d\x7d") =
      (some (toL "use sdxl"), toL "Think:  \x7b\"workflow\":\x7b\x7d\x7d") := by
  have h := thinking_block_extracted
    (toL "Think: <thinking> use sdxl </thinking> \x7b\"workflow\":\x7b\x7d\x7d")
    (toL "Think: ") (toL " use sdxl ") (toL " \x7b\"workflow\":\x7b\x7d\x7d")
    (by decide) (by decide) (by decide)
  exact h

/-- C10 counterexample: a parsed response whose workflow has both a `nodes`
key and a `links` key, with `nodes` bound to the (falsy) number `0`.  The
graph check raises although neither key is lacking, so "raises iff the graph
shape keys are missing" fails on the code. -/
theorem graph_check_raises_on_falsy_nodes :
    checkParsedResponse
      (JVal.obj [(wfK, JVal.obj [(nodesK, JVal.num (toL "0")), (linksK, JVal.arr [])]),
        (reqK, JVal.obj [])]) WFormat.graph =
      .error "Generated JSON is not a valid ComfyUI workflow (Graph format)." ∧
    (getProp (JVal.obj [(nodesK, JVal.num (toL "0")), (linksK, JVal.arr [])]) nodesK).isSome
      = true ∧
    (getProp (JVal.obj [(nodesK, JVal.num (toL "0")), (linksK, JVal.arr [])]) linksK).isSome
      = true := by
  exact ⟨rfl, rfl, rfl⟩

/-- C10 amended — graph-format validation in the non-streaming generator:
for every parsed response that passes the earlier checks (not `null`, falsy
`error`, truthy `workflow` and `requirements`), a call with format `graph`
succeeds iff the workflow's `nodes` and `links` values are both truthy — it
raises exactly when either is absent or falsy; and on every success the
returned workflow contains both a `nodes` and a `links` key. -/
theorem graph_check_iff_truthy (v : JVal)
    (h0 : isNullV v = false)
    (h1 : truthyO (getProp v errK) = false)
    (h2 : truthyO (getProp v wfK) = true)
    (h3 : truthyO (getProp v reqK) = true) :
    (checkParsedResponse v WFormat.graph = .ok v ↔
      (truthyO (getProp ((getProp v wfK).getD .null) nodesK) = true ∧
       truthyO (getProp ((getProp v wfK).getD .null) linksK) = true)) ∧
    (checkParsedResponse v WFormat.graph = .ok v →
      ((getProp ((getProp v wfK).getD .null) nodesK).isSome = true ∧
       (getProp ((getProp v wfK).getD .null) linksK).isSome = true)) := by
  have key : checkParsedResponse v WFormat.graph =
      (if !truthyO (getProp ((getProp v wfK).getD .null) nodesK) ||
          !truthyO (getProp ((getProp v wfK).getD .null) linksK) then
        .error "Generated JSON is not a valid ComfyUI workflow (Graph format)."
      else .ok v) := by
    rw [checkParsedResponse, if_neg (by rw [h0]; simp)]
    rw [if_neg (by rw [h1]; simp)]
    rw [if_neg (by rw [h2, h3]; simp)]
  constructor
  · constructor
    · intro hok
      rw [key] at hok
      cases hn : truthyO (getProp ((getProp v wfK).getD .null) nodesK) with
      | false => rw [hn] at hok; simp at hok
      | true =>
        cases hl : truthyO (getProp ((getProp v wfK).getD .null) linksK) with
        | false => rw [hn, hl] at hok; simp at hok
        | true => exact ⟨rfl, rfl⟩
    · rintro ⟨hn, hl⟩
      rw [key, hn, hl]
      simp
  · intro hok
    rw [key] at hok
    cases hn : truthyO (getProp ((getProp v wfK).getD .null) nodesK) with
    | false => rw [hn] at hok; simp at hok
    | true =>
      cases hl : truthyO (getProp ((getProp v wfK).getD .null) linksK) with
      | false => rw [hn, hl] at hok; simp at hok
      | true =>
        constructor
        · cases hg : getProp ((getProp v wfK).getD .null) nodesK with
          | none => rw [hg, truthyO_none] at hn; cases hn
          | some w => rfl
        · cases hg : getProp ((getProp v wfK).getD .null) linksK with
          | none => rw [hg, truthyO_none] at hl; cases hl
          | some w => rfl

/-- C10 witness: a well-shaped graph response passes the check. -/
theorem graph_check_iff_truthy_witness :
    checkParsedResponse
      (JVal.obj [(wfK, JVal.obj [(nodesK, JVal.arr []), (linksK, JVal.arr [])]),
        (reqK, JVal.obj [])]) WFormat.graph =
      .ok (JVal.obj [(wfK, JVal.obj [(nodesK, JVal.arr []), (linksK, JVal.arr [])]),
        (reqK, JVal.obj [])]) := by
  exact (graph_check_iff_truthy
    (JVal.obj [(wfK, JVal.obj [(nodesK, JVal.arr []), (linksK, JVal.arr [])]),
      (reqK, JVal.obj [])]) rfl rfl rfl rfl).1.2 ⟨rfl, rfl⟩
